import Mathlib

/-!
# Verification of the DC-AE / Sana checkpoint converter and transformer forward pass

Shallow embedding of `scripts/convert_dcae_to_diffusers.py` and of the mask /
gating arithmetic of `src/diffusers/models/transformers/sana_transformer.py`.

Python dictionaries are modelled as association lists `List (String × V)`
(insertion-ordered, unique keys as an invariant of actual Python dicts);
Python strings as Lean `String`, with `str.replace` / the `in` substring
test modelled on the underlying `List Char`.
-/

namespace DcAe

/-! ## Python string primitives -/

/-- One scan step of Python's `str.replace`, on the character list.
`fuel` only bounds recursion; it is always called with `fuel ≥ s.length`,
which (for a nonempty pattern) is enough to finish the scan, since each step
consumes at least one character of `s`.  Replaces non-overlapping occurrences
of `pat` left to right, never rescanning the replacement text. -/
def repGo (pat repl : List Char) : Nat → List Char → List Char
  | 0, s => s
  | _ + 1, [] => []
  | fuel + 1, c :: rest =>
    if pat.isPrefixOf (c :: rest) then
      repl ++ repGo pat repl fuel ((c :: rest).drop pat.length)
    else
      c :: repGo pat repl fuel rest

/-- Model of Python `s.replace(pat, repl)` for a nonempty `pat`
(every pattern in this converter is nonempty). -/
def pyReplace (s pat repl : String) : String :=
  String.mk (repGo pat.data repl.data s.data.length s.data)

/-- Model of Python's substring test `pat in s`, on character lists. -/
def subIn (pat : List Char) : List Char → Bool
  | [] => pat.isEmpty
  | c :: rest => pat.isPrefixOf (c :: rest) || subIn pat rest

/-- Model of Python's substring test `pat in s` on strings. -/
def pyIn (pat s : String) : Bool :=
  subIn pat.data s.data

/-! ## Python dict model -/

variable {V : Type*}

/-- First-match lookup, `d[k]` read access. -/
def lookupD : List (String × V) → String → Option V
  | [], _ => none
  | e :: t, k => if e.1 = k then some e.2 else lookupD t k

/-- Model of `k in d.keys()`. -/
def hasKey (d : List (String × V)) (k : String) : Bool :=
  d.any (fun e => e.1 == k)

/-- Model of `d.pop(k)`: value of the entry together with the remaining dict,
`none` when the key is absent (Python raises `KeyError`). -/
def dictPop (k : String) : List (String × V) → Option (V × List (String × V))
  | [] => none
  | e :: t =>
    if e.1 = k then some (e.2, t)
    else (dictPop k t).map (fun p => (p.1, e :: p.2))

/-- Model of `d[k] = v`: overwrite in place when the key exists,
otherwise append at the end (Python dict insertion order). -/
def dictSet (k : String) (v : V) : List (String × V) → List (String × V)
  | [] => [(k, v)]
  | e :: t => if e.1 = k then (k, v) :: t else e :: dictSet k v t

/-! ## Nested checkpoint values and `get_state_dict` -/

/-- A value of the loaded checkpoint: a tensor (abstracted by an identifier)
or a nested dict. -/
inductive PyVal where
  | tensor (id : Nat)
  | dict (entries : List (String × PyVal))

/-- Model of `value[k]` on a checkpoint value: key lookup on a dict,
failure (`TypeError`) on a tensor. -/
def pyIndex : PyVal → String → Option PyVal
  | .tensor _, _ => none
  | .dict es, k => lookupD es k

/-- Embedding of `get_state_dict` (convert_dcae_to_diffusers.py, lines 59-67).
Note that every membership test is made on the original `saved_dict`, while the
indexing is made on the current `state_dict` scope; `none` models the
`KeyError`/`TypeError` crash when the indexing fails. -/
def get_state_dict (saved_dict : List (String × PyVal)) : Option PyVal :=
  (if hasKey saved_dict "model" then pyIndex (PyVal.dict saved_dict) "model"
   else some (PyVal.dict saved_dict)).bind fun state_dict =>
  (if hasKey saved_dict "module" then pyIndex state_dict "module"
   else some state_dict).bind fun state_dict =>
  (if hasKey saved_dict "state_dict" then pyIndex state_dict "state_dict"
   else some state_dict)

/-- Modelled from the amended reading of the spec: the three wrapper keys are
tried in fixed order, each membership test made on the ORIGINAL mapping, and a
successful test replaces the scope by the then-current scope's value at that
key. -/
def get_state_dict_spec (saved_dict : List (String × PyVal)) : Option PyVal :=
  (["model", "module", "state_dict"] : List String).foldlM
    (fun scope k =>
      if hasKey saved_dict k then pyIndex scope k else some scope)
    (PyVal.dict saved_dict)

/-! ## Rename table and special-key handlers -/

/-- Embedding of `VAE_KEYS_RENAME_DICT` (lines 24-52): an insertion-ordered
dict of (substring, replacement) pairs, kept here as the listed sequence. -/
def VAE_KEYS_RENAME_DICT : List (String × String) :=
  [("main.", ""),
   ("op_list.", ""),
   ("context_module", "attn"),
   ("local_module", "conv_out"),
   ("aggreg.0.0", "to_qkv_multiscale.0.proj_in"),
   ("aggreg.0.1", "to_qkv_multiscale.0.proj_out"),
   ("norm.", "norm.norm."),
   ("depth_conv.conv", "conv_depth"),
   ("inverted_conv.conv", "conv_inverted"),
   ("point_conv.conv", "conv_point"),
   ("point_conv.norm", "norm"),
   ("conv.conv.", "conv."),
   ("conv1.conv", "conv1"),
   ("conv2.conv", "conv2"),
   ("conv2.norm", "norm"),
   ("proj.conv", "proj_out"),
   ("proj.norm", "norm_out"),
   ("encoder.project_in.conv", "encoder.conv_in"),
   ("encoder.project_out.0.conv", "encoder.conv_out"),
   ("decoder.project_in.conv", "decoder.conv_in"),
   ("decoder.project_out.0", "decoder.norm_out.norm"),
   ("decoder.project_out.2.conv", "decoder.conv_out")]

/-- The inner loop of the rename pass with an arbitrary rule table:
`new_key = key[:]` then `new_key = new_key.replace(a, b)` for each rule. -/
def renameKeyWith (rules : List (String × String)) (key : String) : String :=
  rules.foldl (fun new_key p => pyReplace new_key p.1 p.2) key

/-- Key renaming of `convert_vae` (lines 108-110): fold every rule of
`VAE_KEYS_RENAME_DICT`, in listed order, over the key. -/
def renameKey (key : String) : String :=
  renameKeyWith VAE_KEYS_RENAME_DICT key

/-- Embedding of `update_state_dict_` (lines 70-71):
`state_dict[new_key] = state_dict.pop(old_key)`. -/
def update_state_dict (d : List (String × V)) (old_key new_key : String) :
    Option (List (String × V)) :=
  (dictPop old_key d).map (fun p => dictSet new_key p.1 p.2)

/-- Embedding of `remap_qkv_` (lines 14-21):
`state_dict[key.replace("qkv.conv", "to_qkv")] = state_dict.pop(key)`. -/
def remap_qkv (key : String) (state_dict : List (String × V)) :
    Option (List (String × V)) :=
  (dictPop key state_dict).map
    (fun p => dictSet (pyReplace key "qkv.conv" "to_qkv") p.1 p.2)

/-- The single trigger substring of `VAE_SPECIAL_KEYS_REMAP` (lines 54-56). -/
def special_key : String := "qkv.conv.weight"

/-- The first mutation loop of `convert_vae` (lines 107-111): for each key of
the snapshotted key list, in order, move the entry to its renamed key. -/
def convert_vae_rename (d : List (String × V)) : Option (List (String × V)) :=
  (d.map Prod.fst).foldlM
    (fun state_dict key => update_state_dict state_dict key (renameKey key)) d

/-- The second mutation loop of `convert_vae` (lines 113-117), with the
one-entry `VAE_SPECIAL_KEYS_REMAP` table unrolled: for each snapshotted key
containing `"qkv.conv.weight"`, run `remap_qkv_` in place. -/
def convert_vae_special (d : List (String × V)) : Option (List (String × V)) :=
  (d.map Prod.fst).foldlM
    (fun state_dict key =>
      if pyIn special_key key then remap_qkv key state_dict
      else some state_dict) d

/-- The two key-rewriting passes of `convert_vae` in sequence. -/
def convert_vae_passes (d : List (String × V)) : Option (List (String × V)) :=
  (convert_vae_rename d).bind convert_vae_special

/-! ## `get_vae_config` -/

/-- A value of a model-variant configuration dict: integers, strings,
sequences of these, sequences of integer sequences (the qkv multiscales), or
the rational reading of the one decimal literal (`scaling_factor`). -/
inductive ConfigVal where
  | nat (n : Nat)
  | str (s : String)
  | natSeq (l : List Nat)
  | strSeq (l : List String)
  | natSeqSeq (l : List (List Nat))
  | rat (q : Rat)

/-- Embedding of `get_vae_config` (lines 123-243): each branch tests
membership of `name` in a literal list and builds the configuration dict;
when no branch fires, the Python function reads the unbound local `config`
(an `UnboundLocalError` crash), modelled by `none`. -/
def get_vae_config (name : String) : Option (List (String × ConfigVal)) :=
  if name ∈ ["dc-ae-f32c32-sana-1.0"] then
    some
      [("latent_channels", .nat 32),
       ("encoder_block_types",
        .strSeq ["ResBlock", "ResBlock", "ResBlock", "EViTS5_GLU", "EViTS5_GLU", "EViTS5_GLU"]),
       ("decoder_block_types",
        .strSeq ["ResBlock", "ResBlock", "ResBlock", "EViTS5_GLU", "EViTS5_GLU", "EViTS5_GLU"]),
       ("block_out_channels", .natSeq [128, 256, 512, 512, 1024, 1024]),
       ("encoder_qkv_multiscales", .natSeqSeq [[], [], [], [5], [5], [5]]),
       ("decoder_qkv_multiscales", .natSeqSeq [[], [], [], [5], [5], [5]]),
       ("encoder_layers_per_block", .natSeq [2, 2, 2, 3, 3, 3]),
       ("decoder_layers_per_block", .natSeq [3, 3, 3, 3, 3, 3]),
       ("downsample_block_type", .str "Conv"),
       ("upsample_block_type", .str "interpolate"),
       ("scaling_factor", .rat (41407 / 100000))]
  else if name ∈ ["dc-ae-f32c32-in-1.0", "dc-ae-f32c32-mix-1.0"] then
    some
      [("latent_channels", .nat 32),
       ("encoder_block_types",
        .strSeq ["ResBlock", "ResBlock", "ResBlock",
                 "EfficientViTBlock", "EfficientViTBlock", "EfficientViTBlock"]),
       ("decoder_block_types",
        .strSeq ["ResBlock", "ResBlock", "ResBlock",
                 "EfficientViTBlock", "EfficientViTBlock", "EfficientViTBlock"]),
       ("block_out_channels", .natSeq [128, 256, 512, 512, 1024, 1024]),
       ("encoder_layers_per_block", .natSeq [0, 4, 8, 2, 2, 2]),
       ("decoder_layers_per_block", .natSeq [0, 5, 10, 2, 2, 2]),
       ("encoder_qkv_multiscales", .natSeqSeq [[], [], [], [], [], []]),
       ("decoder_qkv_multiscales", .natSeqSeq [[], [], [], [], [], []]),
       ("decoder_norm_types",
        .strSeq ["batch_norm", "batch_norm", "batch_norm", "rms_norm", "rms_norm", "rms_norm"]),
       ("decoder_act_fns", .strSeq ["relu", "relu", "relu", "silu", "silu", "silu"])]
  else if name ∈ ["dc-ae-f128c512-in-1.0", "dc-ae-f128c512-mix-1.0"] then
    some
      [("latent_channels", .nat 512),
       ("encoder_block_types",
        .strSeq ["ResBlock", "ResBlock", "ResBlock", "EfficientViTBlock", "EfficientViTBlock",
                 "EfficientViTBlock", "EfficientViTBlock", "EfficientViTBlock"]),
       ("decoder_block_types",
        .strSeq ["ResBlock", "ResBlock", "ResBlock", "EfficientViTBlock", "EfficientViTBlock",
                 "EfficientViTBlock", "EfficientViTBlock", "EfficientViTBlock"]),
       ("block_out_channels", .natSeq [128, 256, 512, 512, 1024, 1024, 2048, 2048]),
       ("encoder_layers_per_block", .natSeq [0, 4, 8, 2, 2, 2, 2, 2]),
       ("decoder_layers_per_block", .natSeq [0, 5, 10, 2, 2, 2, 2, 2]),
       ("encoder_qkv_multiscales", .natSeqSeq [[], [], [], [], [], [], [], []]),
       ("decoder_qkv_multiscales", .natSeqSeq [[], [], [], [], [], [], [], []]),
       ("decoder_norm_types",
        .strSeq ["batch_norm", "batch_norm", "batch_norm", "rms_norm", "rms_norm",
                 "rms_norm", "rms_norm", "rms_norm"]),
       ("decoder_act_fns",
        .strSeq ["relu", "relu", "relu", "silu", "silu", "silu", "silu", "silu"])]
  else if name ∈ ["dc-ae-f64c128-in-1.0", "dc-ae-f64c128-mix-1.0"] then
    some
      [("latent_channels", .nat 128),
       ("encoder_block_types",
        .strSeq ["ResBlock", "ResBlock", "ResBlock", "EfficientViTBlock", "EfficientViTBlock",
                 "EfficientViTBlock", "EfficientViTBlock"]),
       ("decoder_block_types",
        .strSeq ["ResBlock", "ResBlock", "ResBlock", "EfficientViTBlock", "EfficientViTBlock",
                 "EfficientViTBlock", "EfficientViTBlock"]),
       ("block_out_channels", .natSeq [128, 256, 512, 512, 1024, 1024, 2048]),
       ("encoder_layers_per_block", .natSeq [0, 4, 8, 2, 2, 2, 2]),
       ("decoder_layers_per_block", .natSeq [0, 5, 10, 2, 2, 2, 2]),
       ("encoder_qkv_multiscales", .natSeqSeq [[], [], [], [], [], [], []]),
       ("decoder_qkv_multiscales", .natSeqSeq [[], [], [], [], [], [], []]),
       ("decoder_norm_types",
        .strSeq ["batch_norm", "batch_norm", "batch_norm", "rms_norm", "rms_norm",
                 "rms_norm", "rms_norm"]),
       ("decoder_act_fns",
        .strSeq ["relu", "relu", "relu", "silu", "silu", "silu", "silu"])]
  else
    none

/-- The enumerated preset names accepted by `get_vae_config`. -/
def vaePresetNames : List String :=
  ["dc-ae-f32c32-sana-1.0", "dc-ae-f32c32-in-1.0", "dc-ae-f32c32-mix-1.0",
   "dc-ae-f128c512-in-1.0", "dc-ae-f128c512-mix-1.0",
   "dc-ae-f64c128-in-1.0", "dc-ae-f64c128-mix-1.0"]

/-- Remainder of a dict after removing the (first) entry with key `k`;
the dict part of `dictPop`'s result. -/
def eraseKey (k : String) : List (String × V) → List (String × V)
  | [] => []
  | e :: t => if e.1 = k then t else e :: eraseKey k t

end DcAe

namespace Sana

/-! ## Attention-mask conversion in `SanaTransformer2DModel.forward` -/

/-- A numeric tensor, abstracted to a shape and a flat list of elements; the
element count is not constrained, for none of the mask arithmetic needs it.
Exact rationals stand in for the floating-point elements. -/
structure PTensor where
  shape : List Nat
  data : List Rat

/-- Number of dimensions, `t.ndim`. -/
def PTensor.ndim (t : PTensor) : Nat := t.shape.length

/-- `t.unsqueeze(1)`: insert a singleton dimension at position 1. -/
def PTensor.unsqueeze1 (t : PTensor) : PTensor :=
  { shape := t.shape.take 1 ++ 1 :: t.shape.drop 1, data := t.data }

/-- The elementwise bias arithmetic `(1 - x) * -10000.0`; the `.to(dtype)`
cast is the identity in the exact-rational model. -/
def biasOf (x : Rat) : Rat := (1 - x) * (-10000)

/-- Embedding of the mask conversion in `SanaTransformer2DModel.forward`
(sana_transformer.py, lines 375-386), for one already-present mask: when the
mask is 2-dimensional, turn it into an additive bias and insert the singleton
query-tokens dimension; otherwise leave it untouched. -/
def convertMask (mask : PTensor) : PTensor :=
  if mask.ndim = 2 then
    PTensor.unsqueeze1 { shape := mask.shape, data := mask.data.map biasOf }
  else mask

/-- The same conversion guarded by `mask is not None`. -/
def prepareMask (mask : Option PTensor) : Option PTensor :=
  mask.map convertMask

/-! ## Gated residual branches of `SanaTransformerBlock.forward` -/

/-- The sub-modules and parameters of one `SanaTransformerBlock`, with the
attention/normalization/feed-forward collaborators abstracted as functions on
rational-valued tensors (indexed by an arbitrary coordinate type `ι`); `attn2`
is absent when no cross-attention dimension is configured. -/
structure Block (ι : Type) where
  norm1 : (ι → Rat) → ι → Rat
  attn1 : (ι → Rat) → ι → Rat
  attn2 : Option ((ι → Rat) → (ι → Rat) → ι → Rat)
  norm2 : (ι → Rat) → ι → Rat
  ff : (ι → Rat) → ι → Rat
  scale_shift_table : Fin 6 → ι → Rat

variable {ι : Type}

/-- The modulation chunking of `SanaTransformerBlock.forward` (lines 151-154):
`self.scale_shift_table[None] + timestep.reshape(batch_size, 6, -1)`, split
into six chunks; chunk 0,1,2 are shift/scale/gate for self-attention and
3,4,5 shift/scale/gate for the feed-forward. -/
def modChunk (b : Block ι) (timestep : Fin 6 → ι → Rat) (i : Fin 6) : ι → Rat :=
  b.scale_shift_table i + timestep i

/-- Residual stream after the self-attention branch (lines 156-161):
`hidden_states + gate_msa * attn1(norm1(hidden_states) * (1 + scale_msa) + shift_msa)`. -/
def afterSelfAttn (b : Block ι) (timestep : Fin 6 → ι → Rat)
    (hidden_states : ι → Rat) : ι → Rat :=
  let norm_hidden_states :=
    b.norm1 hidden_states * (1 + modChunk b timestep 1) + modChunk b timestep 0
  hidden_states + modChunk b timestep 2 * b.attn1 norm_hidden_states

/-- Residual stream after the (optional, ungated) cross-attention branch
(lines 163-169). -/
def afterCrossAttn (b : Block ι) (timestep : Fin 6 → ι → Rat)
    (encoder_hidden_states hidden_states : ι → Rat) : ι → Rat :=
  let h := afterSelfAttn b timestep hidden_states
  match b.attn2 with
  | none => h
  | some attn2 => attn2 h encoder_hidden_states + h

/-- Full block forward (lines 149-177): self-attention branch, cross-attention
branch, then the gated feed-forward branch
`hidden_states + gate_mlp * ff(norm2(hidden_states) * (1 + scale_mlp) + shift_mlp)`. -/
def blockForward (b : Block ι) (timestep : Fin 6 → ι → Rat)
    (encoder_hidden_states hidden_states : ι → Rat) : ι → Rat :=
  let h := afterCrossAttn b timestep encoder_hidden_states hidden_states
  let norm_h := b.norm2 h * (1 + modChunk b timestep 4) + modChunk b timestep 3
  h + modChunk b timestep 5 * b.ff norm_h

end Sana

namespace DcAe

variable {V : Type*}

/-! ## Dictionary lemmas -/

theorem hasKey_eq_isSome (d : List (String × V)) (k : String) :
    hasKey d k = (lookupD d k).isSome := by
  induction d with
  | nil => rfl
  | cons e t ih =>
    rw [hasKey, List.any_cons]
    by_cases h : e.1 = k
    · simp [lookupD, h]
    · rw [lookupD, if_neg h, show (e.1 == k) = false by simp [h], Bool.false_or]
      exact ih

theorem lookupD_eq_none_of_hasKey_eq_false {d : List (String × V)} {k : String}
    (h : hasKey d k = false) : lookupD d k = none := by
  rw [hasKey_eq_isSome] at h
  exact Option.not_isSome_iff_eq_none.mp (by simp [h])

theorem hasKey_iff_mem_keys {d : List (String × V)} {k : String} :
    hasKey d k = true ↔ k ∈ d.map Prod.fst := by
  simp [hasKey, List.any_eq_true, List.mem_map, beq_iff_eq]

theorem hasKey_of_mem_keys {d : List (String × V)} {k : String}
    (h : k ∈ d.map Prod.fst) : hasKey d k = true :=
  hasKey_iff_mem_keys.mpr h

theorem mem_keys_of_hasKey {d : List (String × V)} {k : String}
    (h : hasKey d k = true) : k ∈ d.map Prod.fst :=
  hasKey_iff_mem_keys.mp h

theorem dictPop_eq (k : String) (d : List (String × V)) :
    dictPop k d = (lookupD d k).map (fun v => (v, eraseKey k d)) := by
  induction d with
  | nil => rfl
  | cons e t ih =>
    by_cases h : e.1 = k
    · simp [dictPop, lookupD, eraseKey, h]
    · simp only [dictPop, lookupD, eraseKey, if_neg h, ih]
      cases lookupD t k <;> rfl

theorem eraseKey_sublist (k : String) (d : List (String × V)) :
    (eraseKey k d).Sublist d := by
  induction d with
  | nil => simp [eraseKey]
  | cons e t ih =>
    by_cases h : e.1 = k
    · rw [eraseKey, if_pos h]; exact List.sublist_cons_self e t
    · rw [eraseKey, if_neg h]; exact ih.cons₂ e

theorem lookupD_eraseKey_ne {k k' : String} (h : k' ≠ k) (d : List (String × V)) :
    lookupD (eraseKey k d) k' = lookupD d k' := by
  induction d with
  | nil => rfl
  | cons e t ih =>
    by_cases he : e.1 = k
    · rw [eraseKey, if_pos he, lookupD, if_neg (fun hk => h (hk.symm.trans he))]
    · rw [eraseKey, if_neg he]
      by_cases hk : e.1 = k' <;> simp [lookupD, hk, ih]

theorem hasKey_eraseKey_ne {k k' : String} (h : k' ≠ k) (d : List (String × V)) :
    hasKey (eraseKey k d) k' = hasKey d k' := by
  rw [hasKey_eq_isSome, hasKey_eq_isSome, lookupD_eraseKey_ne h]

theorem length_eraseKey {d : List (String × V)} {k : String}
    (h : hasKey d k = true) : (eraseKey k d).length + 1 = d.length := by
  induction d with
  | nil => simp [hasKey] at h
  | cons e t ih =>
    by_cases he : e.1 = k
    · simp [eraseKey, he]
    · have ht : hasKey t k = true := by
        simpa [hasKey, List.any_cons, he] using h
      simp [eraseKey, he, ih ht]

theorem hasKey_eraseKey_self {d : List (String × V)} {k : String}
    (hnd : (d.map Prod.fst).Nodup) : hasKey (eraseKey k d) k = false := by
  induction d with
  | nil => rfl
  | cons e t ih =>
    rw [List.map_cons, List.nodup_cons] at hnd
    by_cases he : e.1 = k
    · subst he
      rw [eraseKey, if_pos rfl]
      by_contra hc
      have hmem : e.1 ∈ t.map Prod.fst :=
        mem_keys_of_hasKey (by revert hc; cases hasKey t e.1 <;> simp)
      exact hnd.1 hmem
    · rw [eraseKey, if_neg he, hasKey, List.any_cons,
        show (e.1 == k) = false by simp [he], Bool.false_or]
      exact ih hnd.2

theorem lookupD_append (d₁ d₂ : List (String × V)) (k : String) :
    lookupD (d₁ ++ d₂) k =
      match lookupD d₁ k with
      | some v => some v
      | none => lookupD d₂ k := by
  induction d₁ with
  | nil => simp [lookupD]
  | cons e t ih =>
    by_cases h : e.1 = k <;> simp [lookupD, h, ih]

theorem hasKey_append (d₁ d₂ : List (String × V)) (k : String) :
    hasKey (d₁ ++ d₂) k = (hasKey d₁ k || hasKey d₂ k) := by
  simp [hasKey, List.any_append]

theorem dictSet_eq_append {d : List (String × V)} {k : String}
    (h : hasKey d k = false) (v : V) : dictSet k v d = d ++ [(k, v)] := by
  induction d with
  | nil => rfl
  | cons e t ih =>
    rw [hasKey, List.any_cons, Bool.or_eq_false_iff] at h
    rw [dictSet, if_neg (by simpa using h.1), ih h.2]
    rfl

/-! ## Claim on `remap_qkv_` -/

/-- C4: on a mapping with distinct keys, `remap_qkv_` applied to a present
key containing the trigger substring removes that entry and inserts exactly
one entry under the key with `"qkv.conv"` replaced by `"to_qkv"`, bound to
the identical value; the entry count is unchanged (given that the new key is
not already present) and every other entry is untouched. -/
theorem remap_qkv_single_entry_rename (d : List (String × V)) (key : String)
    (hnd : (d.map Prod.fst).Nodup)
    (htrig : pyIn special_key key = true)
    (hmem : hasKey d key = true)
    (hnew : hasKey d (pyReplace key "qkv.conv" "to_qkv") = false) :
    ∃ d', remap_qkv key d = some d' ∧
      d'.length = d.length ∧
      lookupD d' (pyReplace key "qkv.conv" "to_qkv") = lookupD d key ∧
      hasKey d' key = false ∧
      ∀ k, k ≠ key → k ≠ pyReplace key "qkv.conv" "to_qkv" →
        lookupD d' k = lookupD d k := by
  have _ := htrig
  set nk := pyReplace key "qkv.conv" "to_qkv" with hnk
  have hkne : nk ≠ key := by
    intro h
    rw [h, hmem] at hnew
    exact Bool.noConfusion hnew
  obtain ⟨v, hv⟩ : ∃ v, lookupD d key = some v := by
    rw [hasKey_eq_isSome] at hmem
    exact Option.isSome_iff_exists.mp hmem
  have hpop : dictPop key d = some (v, eraseKey key d) := by
    rw [dictPop_eq, hv]; rfl
  have herase_new : hasKey (eraseKey key d) nk = false := by
    rw [hasKey_eraseKey_ne hkne]; exact hnew
  refine ⟨eraseKey key d ++ [(nk, v)], ?_, ?_, ?_, ?_, ?_⟩
  · unfold remap_qkv
    rw [hpop]
    exact congrArg some (dictSet_eq_append herase_new v)
  · simp only [List.length_append, List.length_cons, List.length_nil]
    exact length_eraseKey hmem
  · rw [lookupD_append, lookupD_eq_none_of_hasKey_eq_false herase_new, hv]
    simp [lookupD]
  · rw [hasKey_append, hasKey_eraseKey_self hnd]
    simp only [hasKey, List.any_cons, List.any_nil, Bool.false_or, Bool.or_false,
      beq_eq_false_iff_ne, ne_eq]
    exact hkne
  · intro k hk1 hk2
    rw [lookupD_append, lookupD_eraseKey_ne hk1]
    cases lookupD d k with
    | some v' => rfl
    | none =>
      simp only [lookupD, List.cons.injEq]
      rw [if_neg (fun h => hk2 h.symm)]

/-- C4 witness: a two-entry mapping with one trigger key. -/
theorem remap_qkv_single_entry_rename_witness :
    ∃ d', remap_qkv "attn.qkv.conv.weight"
        [("attn.qkv.conv.weight", (0 : Nat)), ("other", 1)] = some d' ∧
      d'.length = [("attn.qkv.conv.weight", (0 : Nat)), ("other", 1)].length ∧
      lookupD d' (pyReplace "attn.qkv.conv.weight" "qkv.conv" "to_qkv") =
        lookupD [("attn.qkv.conv.weight", (0 : Nat)), ("other", 1)] "attn.qkv.conv.weight" ∧
      hasKey d' "attn.qkv.conv.weight" = false ∧
      ∀ k, k ≠ "attn.qkv.conv.weight" →
        k ≠ pyReplace "attn.qkv.conv.weight" "qkv.conv" "to_qkv" →
          lookupD d' k = lookupD [("attn.qkv.conv.weight", (0 : Nat)), ("other", 1)] k :=
  remap_qkv_single_entry_rename _ _ (by decide) (by decide) (by decide) (by decide)

/-! ## Claims on `get_state_dict` -/

/-- C1 counterexample: for the nested mapping `{"model": {"module": X}}` the
unwrap step does NOT return the inner `X`: the `"module"` membership test is
made on the original mapping, which lacks that key, so the scope stays at
`{"module": X}`. -/
theorem get_state_dict_nested_model_module_not_innermost :
    get_state_dict [("model", PyVal.dict [("module", PyVal.tensor 0)])] ≠
      some (PyVal.tensor 0) := by
  intro h
  have h1 : get_state_dict [("model", PyVal.dict [("module", PyVal.tensor 0)])] =
      some (PyVal.dict [("module", PyVal.tensor 0)]) := rfl
  rw [h1] at h
  exact PyVal.noConfusion (Option.some.inj h)

/-- C1 (amended): the unwrap step checks the wrapper keys `"model"`,
`"module"`, `"state_dict"` in that fixed order, but every membership test is
made on the original top-level mapping; a successful test replaces the scope
by the then-current scope's value at that key.  In particular
`{"model": {"module": X}}` unwraps to `{"module": X}`, not to `X`. -/
theorem get_state_dict_checks_original_mapping :
    (∀ saved_dict, get_state_dict saved_dict = get_state_dict_spec saved_dict) ∧
      get_state_dict [("model", PyVal.dict [("module", PyVal.tensor 0)])] =
        some (PyVal.dict [("module", PyVal.tensor 0)]) := by
  refine ⟨fun saved_dict => ?_, rfl⟩
  have hbs : ∀ x : Option PyVal, x.bind some = x := fun x => by cases x <;> rfl
  have hcong : ∀ (x : Option PyVal) (f g : PyVal → Option PyVal),
      (∀ a, f a = g a) → x.bind f = x.bind g := by
    intro x f g h; cases x <;> simp [h]
  simp only [get_state_dict, get_state_dict_spec, List.foldlM]
  exact hcong _ _ _ fun s1 => hcong _ _ _ fun s2 => (hbs _).symm

/-- C6: a mapping containing none of the three wrapper keys is returned
unchanged by `get_state_dict`, and unwrapping the returned mapping again
changes nothing. -/
theorem get_state_dict_no_wrapper_fixedpoint (saved_dict : List (String × PyVal))
    (h1 : hasKey saved_dict "model" = false)
    (h2 : hasKey saved_dict "module" = false)
    (h3 : hasKey saved_dict "state_dict" = false) :
    get_state_dict saved_dict = some (PyVal.dict saved_dict) ∧
      ∀ es, get_state_dict saved_dict = some (PyVal.dict es) →
        get_state_dict es = get_state_dict saved_dict := by
  have hmain : get_state_dict saved_dict = some (PyVal.dict saved_dict) := by
    simp [get_state_dict, h1, h2, h3]
  refine ⟨hmain, fun es hes => ?_⟩
  rw [hmain] at hes
  have : saved_dict = es := PyVal.dict.inj (Option.some.inj hes)
  rw [← this, hmain]

/-- C6 witness: a concrete wrapper-free mapping is a fixed point. -/
theorem get_state_dict_no_wrapper_fixedpoint_witness :
    get_state_dict [("a", PyVal.tensor 0)] = some (PyVal.dict [("a", PyVal.tensor 0)]) :=
  (get_state_dict_no_wrapper_fixedpoint [("a", PyVal.tensor 0)] rfl rfl rfl).1

/-! ## Claims on the rename rule table -/

/-- C2: the rename pass maps each key to the left-to-right fold of plain
substring replacement over the rules of `VAE_KEYS_RENAME_DICT` in listed
order (hence it is a deterministic function of the key); the listed order
matters (reversing the table changes the image of a concrete key); and the
`"norm." → "norm.norm."` output fragment is not re-expanded by any rule
placed after it in the table. -/
theorem rename_fold_deterministic_order_sensitive :
    (∀ key : String,
        renameKey key =
          VAE_KEYS_RENAME_DICT.foldl (fun new_key p => pyReplace new_key p.1 p.2) key) ∧
      (∃ key : String,
        renameKeyWith VAE_KEYS_RENAME_DICT.reverse key ≠ renameKey key) ∧
      ∀ p ∈ VAE_KEYS_RENAME_DICT.drop 7, pyReplace "norm.norm." p.1 p.2 = "norm.norm." :=
  ⟨fun _ => rfl, ⟨"depth_conv.conv.weight", by decide⟩, by decide⟩

/-- C2 witness: the rule placed immediately after `"norm."` in the table
leaves the fragment `"norm.norm."` unchanged. -/
theorem rename_fold_deterministic_order_sensitive_witness :
    pyReplace "norm.norm." "depth_conv.conv" "conv_depth" = "norm.norm." :=
  rename_fold_deterministic_order_sensitive.2.2 ("depth_conv.conv", "conv_depth") (by decide)

/-- C5: the rename pass is not idempotent on keys: renaming a key containing
`"norm."` twice re-expands the `"norm.norm."` fragment produced by the first
pass. -/
theorem rename_pass_not_idempotent :
    ∃ key : String, renameKey (renameKey key) ≠ renameKey key :=
  ⟨"x.norm.weight", by decide⟩

/-- C3: end to end on `{"model": {"encoder.project_in.conv.weight": T}}`:
unwrapping yields the inner single-entry mapping, and the rename pass followed
by the special-key pass yields exactly `{"encoder.conv_in.weight": T}` with
the same tensor. -/
theorem end_to_end_single_entry_conversion :
    get_state_dict [("model", PyVal.dict [("encoder.project_in.conv.weight", PyVal.tensor 0)])] =
        some (PyVal.dict [("encoder.project_in.conv.weight", PyVal.tensor 0)]) ∧
      convert_vae_passes [("encoder.project_in.conv.weight", PyVal.tensor 0)] =
        some [("encoder.conv_in.weight", PyVal.tensor 0)] :=
  ⟨rfl, rfl⟩

/-! ## Claim on `get_vae_config` -/

/-- C9: `get_vae_config` produces a configuration for exactly the seven
enumerated preset names, and crashes (reads an unbound local, modelled by
`none`) for every other name. -/
theorem get_vae_config_enumerated_presets :
    (∀ name ∈ vaePresetNames, (get_vae_config name).isSome = true) ∧
      ∀ name : String, name ∉ vaePresetNames → get_vae_config name = none := by
  refine ⟨by decide, fun name h => ?_⟩
  simp only [vaePresetNames, List.mem_cons, List.not_mem_nil, or_false, not_or] at h
  obtain ⟨n1, n2, n3, n4, n5, n6, n7⟩ := h
  simp [get_vae_config, n1, n2, n3, n4, n5, n6, n7]

/-- C9 witness: one accepted preset name and one rejected name. -/
theorem get_vae_config_enumerated_presets_witness :
    (get_vae_config "dc-ae-f32c32-sana-1.0").isSome = true ∧
      get_vae_config "unknown-model" = none :=
  ⟨get_vae_config_enumerated_presets.1 "dc-ae-f32c32-sana-1.0" (by decide),
   get_vae_config_enumerated_presets.2 "unknown-model" (by decide)⟩

end DcAe

namespace Sana

/-! ## Claims on the transformer -/

/-- C7: in a transformer block, a zero gate makes the corresponding gated
branch contribute exactly zero to the residual stream: with `gate_msa = 0`
the state after the self-attention branch equals the state before it, and
with `gate_mlp = 0` the block output equals the state after the
cross-attention branch.  (The exact-rational model has no non-finite values,
matching the claim's finiteness proviso.) -/
theorem block_zero_gate_preserves_residual {ι : Type} (b : Block ι)
    (timestep : Fin 6 → ι → Rat) (encoder_hidden_states hidden_states : ι → Rat) :
    (modChunk b timestep 2 = 0 →
      afterSelfAttn b timestep hidden_states = hidden_states) ∧
      (modChunk b timestep 5 = 0 →
        blockForward b timestep encoder_hidden_states hidden_states =
          afterCrossAttn b timestep encoder_hidden_states hidden_states) := by
  constructor
  · intro hg
    unfold afterSelfAttn
    rw [hg]; simp
  · intro hg
    unfold blockForward
    rw [hg]; simp

/-- C7 witness: a concrete block with both gates zero leaves the residual
stream unchanged on both gated branches. -/
theorem block_zero_gate_preserves_residual_witness :
    (afterSelfAttn (ι := Unit) ⟨id, id, some fun a _ => a, id, id, fun _ _ => 0⟩
        (fun _ _ => 0) (fun _ => 1) = fun _ => (1 : Rat)) ∧
      blockForward (ι := Unit) ⟨id, id, some fun a _ => a, id, id, fun _ _ => 0⟩
          (fun _ _ => 0) (fun _ => 2) (fun _ => 1) =
        afterCrossAttn (ι := Unit) ⟨id, id, some fun a _ => a, id, id, fun _ _ => 0⟩
          (fun _ _ => 0) (fun _ => 2) (fun _ => 1) := by
  have hz : modChunk (ι := Unit) ⟨id, id, some fun a _ => a, id, id, fun _ _ => 0⟩
      (fun _ _ => 0) 2 = 0 := by
    funext i; simp [modChunk]
  have hz5 : modChunk (ι := Unit) ⟨id, id, some fun a _ => a, id, id, fun _ _ => 0⟩
      (fun _ _ => 0) 5 = 0 := by
    funext i; simp [modChunk]
  exact ⟨(block_zero_gate_preserves_residual _ _ (fun _ => 2) (fun _ => 1)).1 hz,
    (block_zero_gate_preserves_residual _ _ (fun _ => 2) (fun _ => 1)).2 hz5⟩

/-- C8: a 2-dimensional boolean-style mask `[batch, key_tokens]` is converted
into an additive bias of shape `[batch, 1, key_tokens]` by mapping each entry
`x` to `(1 - x) * -10000.0`, sending keep entries (1) to 0 and discard
entries (0) to -10000; a mask of any other rank is used unchanged. -/
theorem attention_mask_bias_conversion (t : PTensor) :
    (∀ b k, t.shape = [b, k] →
        convertMask t = { shape := [b, 1, k], data := t.data.map biasOf }) ∧
      (t.ndim ≠ 2 → convertMask t = t) ∧
      biasOf 1 = 0 ∧ biasOf 0 = -10000 := by
  refine ⟨fun b k hbk => ?_, fun hn => ?_, by norm_num [biasOf], by norm_num [biasOf]⟩
  · have hn : t.ndim = 2 := by simp [PTensor.ndim, hbk]
    simp [convertMask, hn, PTensor.unsqueeze1, hbk]
  · simp [convertMask, hn]

/-- C8 witness: the concrete mask `[[1, 0]]` of shape `[1, 2]` becomes the
bias `[[[0, -10000]]]` of shape `[1, 1, 2]`, and a 1-dimensional mask is left
unchanged. -/
theorem attention_mask_bias_conversion_witness :
    convertMask ⟨[1, 2], [1, 0]⟩ = ⟨[1, 1, 2], [0, -10000]⟩ ∧
      convertMask ⟨[2], [1, 0]⟩ = ⟨[2], [1, 0]⟩ := by
  constructor
  · have h := (attention_mask_bias_conversion ⟨[1, 2], [1, 0]⟩).1 1 2 rfl
    rw [h]
    norm_num [biasOf]
  · exact (attention_mask_bias_conversion ⟨[2], [1, 0]⟩).2.1 (by simp [PTensor.ndim])

end Sana

namespace DcAe

/-! ## Snapshot-loop machinery for the two mutation passes of `convert_vae` -/

variable {V : Type*}


theorem eraseKey_append_left {d₁ : List (String × V)} (d₂ : List (String × V)) {k : String}
    (h : hasKey d₁ k = true) : eraseKey k (d₁ ++ d₂) = eraseKey k d₁ ++ d₂ := by
  induction d₁ with
  | nil => simp [hasKey] at h
  | cons e t ih =>
    by_cases he : e.1 = k
    · simp [eraseKey, he]
    · have ht : hasKey t k = true := by
        simpa [hasKey, List.any_cons, he] using h
      simp [eraseKey, he, ih ht]

theorem filter_snapshot_eraseKey {k : String} (g : String → Bool) (ks : List String)
    (hgk : g k = true) :
    ∀ (stay : List (String × V)), (stay.map Prod.fst).Nodup →
      stay.filter (fun e => !((k :: ks).contains e.1 && g e.1)) =
        (eraseKey k stay).filter (fun e => !(ks.contains e.1 && g e.1)) := by
  intro stay
  induction stay with
  | nil => intro _; rfl
  | cons e t ih =>
    intro hnd
    rw [List.map_cons, List.nodup_cons] at hnd
    by_cases he : e.1 = k
    · subst he
      rw [eraseKey, if_pos rfl, List.filter_cons]
      have hc : ((e.1 :: ks).contains e.1 && g e.1) = true := by
        simp [List.contains_cons, hgk]
      rw [hc]
      simp only [Bool.not_true, Bool.false_eq_true, if_false]
      refine List.filter_congr fun e' he' => ?_
      have hne : e'.1 ≠ e.1 := fun hcc =>
        hnd.1 (hcc ▸ List.mem_map_of_mem Prod.fst he')
      simp [List.contains_cons, hne]
    · rw [eraseKey, if_neg he, List.filter_cons, List.filter_cons]
      have hcc : ((k :: ks).contains e.1 && g e.1) = (ks.contains e.1 && g e.1) := by
        simp [List.contains_cons, he]
      rw [hcc, ih hnd.2]

theorem foldPass_eq (f : String → String) (g : String → Bool) :
    ∀ (ks : List String) (stay done : List (String × V)),
      ks.Nodup →
      (∀ k ∈ ks, hasKey stay k = true) →
      ((stay ++ done).map Prod.fst).Nodup →
      (∀ k ∈ ks, g k = true → ∀ e ∈ stay ++ done, f k = e.1 → k = e.1) →
      ks.Pairwise (fun a b => g a = true → g b = true → f a ≠ f b) →
      List.foldlM
          (fun acc key => if g key then update_state_dict acc key (f key) else some acc)
          (stay ++ done) ks
        = some (stay.filter (fun e => !(ks.contains e.1 && g e.1)) ++ done ++
            ks.filterMap (fun k =>
              if g k then (lookupD stay k).map (fun v => (f k, v)) else none)) := by
  intro ks
  induction ks with
  | nil =>
    intro stay done _ _ _ _ _
    simp [List.foldlM]
  | cons k ks ih =>
    intro stay done hnd hpend hkeys hfresh hpair
    rw [List.nodup_cons] at hnd
    rw [List.pairwise_cons] at hpair
    rw [List.foldlM_cons]
    by_cases hg : g k = true
    case neg =>
      rw [Bool.not_eq_true] at hg
      rw [if_neg (by simp [hg])]
      show (some (stay ++ done)).bind _ = _
      rw [Option.some_bind]
      rw [ih stay done hnd.2 (fun k₂ h₂ => hpend k₂ (List.mem_cons_of_mem k h₂)) hkeys
        (fun k₂ h₂ => hfresh k₂ (List.mem_cons_of_mem k h₂)) hpair.2]
      congr 2
      · refine congrArg (· ++ done) (List.filter_congr fun e _ => ?_)
        by_cases he : e.1 = k <;> simp [List.contains_cons, he, hg]
      · rw [List.filterMap_cons]
        simp [hg]
    case pos =>
      rw [if_pos hg]
      have hstay : hasKey stay k = true := hpend k (List.mem_cons_self k ks)
      obtain ⟨v, hv⟩ : ∃ v, lookupD stay k = some v := by
        rw [hasKey_eq_isSome] at hstay
        exact Option.isSome_iff_exists.mp hstay
      have hlk : lookupD (stay ++ done) k = some v := by
        rw [lookupD_append, hv]
      have hpop : dictPop k (stay ++ done) = some (v, eraseKey k stay ++ done) := by
        rw [dictPop_eq, hlk, eraseKey_append_left done hstay]
        rfl
      have hstayN : (stay.map Prod.fst).Nodup := by
        rw [List.map_append] at hkeys
        exact hkeys.of_append_left
      have hdisj : (stay.map Prod.fst).Disjoint (done.map Prod.fst) := by
        rw [List.map_append, List.nodup_append] at hkeys
        exact hkeys.2.2
      have hkdone : hasKey done k = false := by
        rw [← Bool.not_eq_true]
        intro hcc
        exact hdisj (mem_keys_of_hasKey hstay) (mem_keys_of_hasKey hcc)
      have hfree : hasKey (eraseKey k stay ++ done) (f k) = false := by
        by_cases hfk : f k = k
        · rw [hfk, hasKey_append, hasKey_eraseKey_self hstayN, hkdone]
          rfl
        · have hsd : hasKey (stay ++ done) (f k) = false := by
            rw [← Bool.not_eq_true]
            intro hcc
            obtain ⟨e, he, hei⟩ := List.mem_map.mp (mem_keys_of_hasKey hcc)
            exact hfk ((hfresh k (List.mem_cons_self k ks) hg e he hei.symm).trans hei).symm
          rw [hasKey_append, Bool.or_eq_false_iff] at hsd
          rw [hasKey_append, hasKey_eraseKey_ne hfk, hsd.1, hsd.2]
          rfl
      have hstep : update_state_dict (stay ++ done) k (f k)
          = some (eraseKey k stay ++ (done ++ [(f k, v)])) := by
        unfold update_state_dict
        rw [hpop]
        refine congrArg some ?_
        show dictSet (f k) v (eraseKey k stay ++ done) = _
        rw [dictSet_eq_append hfree v, List.append_assoc]
      rw [hstep]
      show (some _).bind _ = _
      rw [Option.some_bind]
      -- the hypotheses of the induction step
      have hpend' : ∀ k₂ ∈ ks, hasKey (eraseKey k stay) k₂ = true := fun k₂ h₂ => by
        rw [hasKey_eraseKey_ne (fun hcc : k₂ = k => hnd.1 (hcc ▸ h₂))]
        exact hpend k₂ (List.mem_cons_of_mem k h₂)
      have hsub : (eraseKey k stay ++ done).Sublist (stay ++ done) :=
        (eraseKey_sublist k stay).append (List.Sublist.refl done)
      have h1 : ((eraseKey k stay ++ done).map Prod.fst).Nodup :=
        hkeys.sublist (hsub.map Prod.fst)
      have h2 : f k ∉ ((eraseKey k stay ++ done).map Prod.fst) := by
        intro hcc
        have := hasKey_of_mem_keys hcc
        rw [hfree] at this
        exact Bool.noConfusion this
      have hkeys' : ((eraseKey k stay ++ (done ++ [(f k, v)])).map Prod.fst).Nodup := by
        rw [← List.append_assoc, List.map_append]
        refine h1.append (by simp) ?_
        intro a ha hb
        rw [List.map_singleton, List.mem_singleton] at hb
        subst hb
        exact h2 ha
      have hfresh' : ∀ k₂ ∈ ks, g k₂ = true →
          ∀ e ∈ eraseKey k stay ++ (done ++ [(f k, v)]), f k₂ = e.1 → k₂ = e.1 := by
        intro k₂ h₂ hg₂ e he hfe
        rw [← List.append_assoc] at he
        rcases List.mem_append.mp he with he' | he''
        · exact hfresh k₂ (List.mem_cons_of_mem k h₂) hg₂ e (hsub.subset he') hfe
        · rw [List.mem_singleton] at he''
          subst he''
          exact absurd hfe.symm (hpair.1 k₂ h₂ hg hg₂)
      rw [ih (eraseKey k stay) (done ++ [(f k, v)]) hnd.2 hpend' hkeys' hfresh' hpair.2]
      congr 1
      rw [List.filterMap_cons]
      simp only [hg, if_true, hv, Option.map_some']
      rw [filter_snapshot_eraseKey g ks hg stay hstayN]
      rw [List.filterMap_congr (g := fun k₂ =>
          if g k₂ then (lookupD stay k₂).map (fun v => (f k₂, v)) else none)
        (fun k₂ h₂ => by
          have hne : k₂ ≠ k := fun hcc => hnd.1 (hcc ▸ h₂)
          rw [lookupD_eraseKey_ne hne])]
      simp [List.append_assoc]


theorem filterMap_keys_eq (f : String → String) (g : String → Bool) :
    ∀ (d : List (String × V)), (d.map Prod.fst).Nodup →
      (d.map Prod.fst).filterMap (fun k =>
          if g k then (lookupD d k).map (fun v => (f k, v)) else none)
        = (d.filter (fun e => g e.1)).map (fun e => (f e.1, e.2)) := by
  intro d
  induction d with
  | nil => intro _; rfl
  | cons e t ih =>
    intro hnd
    rw [List.map_cons, List.nodup_cons] at hnd
    rw [List.map_cons, List.filterMap_cons, List.filter_cons]
    have hhead : lookupD (e :: t) e.1 = some e.2 := by rw [lookupD, if_pos rfl]
    have htail : (t.map Prod.fst).filterMap (fun k =>
        if g k then (lookupD (e :: t) k).map (fun v => (f k, v)) else none)
        = (t.filter (fun e' => g e'.1)).map (fun e' => (f e'.1, e'.2)) := by
      rw [List.filterMap_congr (g := fun k =>
          if g k then (lookupD t k).map (fun v => (f k, v)) else none)
        (fun k₂ h₂ => by
          have hne : e.1 ≠ k₂ := fun hc => hnd.1 (hc ▸ h₂)
          rw [lookupD, if_neg hne])]
      exact ih hnd.2
    by_cases hge : g e.1 = true
    · rw [hge]
      simp only [if_true, hhead, Option.map_some', htail, List.map_cons]
    · rw [Bool.not_eq_true] at hge
      rw [hge]
      simp only [Bool.false_eq_true, if_false, htail]

theorem convert_vae_rename_eq (d : List (String × V))
    (hkeys : (d.map Prod.fst).Nodup)
    (hfresh : ∀ k ∈ d.map Prod.fst, ∀ k' ∈ d.map Prod.fst, renameKey k = k' → k = k')
    (hpair : (d.map Prod.fst).Pairwise (fun a b => renameKey a ≠ renameKey b)) :
    convert_vae_rename d = some (d.map fun e => (renameKey e.1, e.2)) := by
  have h := foldPass_eq (V := V) renameKey (fun _ => true) (d.map Prod.fst) d []
    hkeys
    (fun k hk => hasKey_of_mem_keys hk)
    (by rw [List.append_nil]; exact hkeys)
    (fun k hk _ e he hfe => hfresh k hk e.1
      (by rw [List.append_nil] at he; exact List.mem_map_of_mem Prod.fst he) hfe)
    (hpair.imp fun h _ _ => h)
  rw [List.append_nil] at h
  have hfil : d.filter (fun e => !((d.map Prod.fst).contains e.1 && true)) = [] := by
    rw [List.filter_eq_nil_iff]
    intro e he
    have hc : (d.map Prod.fst).contains e.1 = true :=
      List.elem_eq_true_of_mem (List.mem_map_of_mem Prod.fst he)
    simp [hc]
    exact ⟨e.2, he⟩
  have hmov := filterMap_keys_eq (V := V) renameKey (fun _ => true) d hkeys
  rw [List.filter_true] at hmov
  refine h.trans ?_
  rw [hfil, hmov]
  simp

theorem convert_vae_special_eq (d : List (String × V))
    (hkeys : (d.map Prod.fst).Nodup)
    (hfresh : ∀ k ∈ d.map Prod.fst, pyIn special_key k = true →
      ∀ k' ∈ d.map Prod.fst, pyReplace k "qkv.conv" "to_qkv" = k' → k = k')
    (hpair : (d.map Prod.fst).Pairwise (fun a b =>
      pyIn special_key a = true → pyIn special_key b = true →
        pyReplace a "qkv.conv" "to_qkv" ≠ pyReplace b "qkv.conv" "to_qkv")) :
    convert_vae_special d =
      some (d.filter (fun e => !(pyIn special_key e.1)) ++
        (d.filter (fun e => pyIn special_key e.1)).map
          (fun e => (pyReplace e.1 "qkv.conv" "to_qkv", e.2))) := by
  have h := foldPass_eq (V := V) (fun k => pyReplace k "qkv.conv" "to_qkv")
    (fun k => pyIn special_key k) (d.map Prod.fst) d []
    hkeys
    (fun k hk => hasKey_of_mem_keys hk)
    (by rw [List.append_nil]; exact hkeys)
    (fun k hk hg e he hfe => hfresh k hk hg e.1
      (by rw [List.append_nil] at he; exact List.mem_map_of_mem Prod.fst he) hfe)
    hpair
  rw [List.append_nil] at h
  have hfil : d.filter (fun e => !((d.map Prod.fst).contains e.1 && pyIn special_key e.1)) =
      d.filter (fun e => !(pyIn special_key e.1)) := by
    refine List.filter_congr fun e he => ?_
    have hc : (d.map Prod.fst).contains e.1 = true :=
      List.elem_eq_true_of_mem (List.mem_map_of_mem Prod.fst he)
    rw [hc, Bool.true_and]
  have hmov := filterMap_keys_eq (V := V) (fun k => pyReplace k "qkv.conv" "to_qkv")
    (fun k => pyIn special_key k) d hkeys
  refine h.trans ?_
  rw [hfil, hmov]
  simp









/-- C10 (amended): the rename pass followed by the special-key pass never
modifies values, only keys, provided no transient key collision occurs: for
every mapping with pairwise-distinct keys whose renamed keys are pairwise
distinct, coincide with no different key of the mapping, and whose
special-pass target keys (`"qkv.conv"` to `"to_qkv"` on triggered renamed
keys) are pairwise distinct and coincide with no different renamed key, the
passes succeed and the multiset of values of the result equals the multiset
of values of the input. -/
theorem convert_vae_passes_values_preserved (d : List (String × V))
    (h0 : (d.map Prod.fst).Nodup)
    (h1 : ∀ k ∈ d.map Prod.fst, ∀ k' ∈ d.map Prod.fst, renameKey k = k' → k = k')
    (h2 : (d.map Prod.fst).Pairwise (fun a b => renameKey a ≠ renameKey b))
    (h3 : ∀ k ∈ d.map Prod.fst, pyIn special_key (renameKey k) = true →
        ∀ k' ∈ d.map Prod.fst, pyReplace (renameKey k) "qkv.conv" "to_qkv" = renameKey k' →
          renameKey k = renameKey k')
    (h4 : (d.map Prod.fst).Pairwise (fun a b =>
        pyIn special_key (renameKey a) = true → pyIn special_key (renameKey b) = true →
          pyReplace (renameKey a) "qkv.conv" "to_qkv" ≠
            pyReplace (renameKey b) "qkv.conv" "to_qkv")) :
    ∃ result, convert_vae_passes d = some result ∧
      List.Perm (result.map Prod.snd) (d.map Prod.snd) := by
  obtain ⟨d₁, hd₁⟩ : ∃ x, x = d.map (fun e => (renameKey e.1, e.2)) := ⟨_, rfl⟩
  have hkeys₁ : d₁.map Prod.fst = (d.map Prod.fst).map renameKey := by
    rw [hd₁]
    simp [List.map_map, Function.comp]
  have hnd₁ : (d₁.map Prod.fst).Nodup := by
    rw [hkeys₁]
    show ((d.map Prod.fst).map renameKey).Pairwise (· ≠ ·)
    rw [List.pairwise_map]
    exact h2
  have hfresh₁ : ∀ k ∈ d₁.map Prod.fst, pyIn special_key k = true →
      ∀ k' ∈ d₁.map Prod.fst, pyReplace k "qkv.conv" "to_qkv" = k' → k = k' := by
    intro k hk hg k' hk' heq
    rw [hkeys₁] at hk hk'
    obtain ⟨a, ha, rfl⟩ := List.mem_map.mp hk
    obtain ⟨b, hb, rfl⟩ := List.mem_map.mp hk'
    exact h3 a ha hg b hb heq
  have hpair₁ : (d₁.map Prod.fst).Pairwise (fun a b =>
      pyIn special_key a = true → pyIn special_key b = true →
        pyReplace a "qkv.conv" "to_qkv" ≠ pyReplace b "qkv.conv" "to_qkv") := by
    rw [hkeys₁, List.pairwise_map]
    exact h4
  have hrename : convert_vae_rename d = some d₁ := by
    rw [hd₁]
    exact convert_vae_rename_eq d h0 h1 h2
  have hspecial := convert_vae_special_eq d₁ hnd₁ hfresh₁ hpair₁
  refine ⟨d₁.filter (fun e => !(pyIn special_key e.1)) ++
      (d₁.filter (fun e => pyIn special_key e.1)).map
        (fun e => (pyReplace e.1 "qkv.conv" "to_qkv", e.2)), ?_, ?_⟩
  · show (convert_vae_rename d).bind convert_vae_special = _
    rw [hrename, Option.some_bind]
    exact hspecial
  · have hperm : List.Perm
        ((d₁.filter (fun e => !(pyIn special_key e.1)) ++
          d₁.filter (fun e => pyIn special_key e.1)).map Prod.snd)
        (d₁.map Prod.snd) := by
      refine List.Perm.map Prod.snd ?_
      have hp := List.filter_append_perm (fun e => !(pyIn special_key e.1)) d₁
      simpa using hp
    have hsplit : ((d₁.filter (fun e => !(pyIn special_key e.1)) ++
        (d₁.filter (fun e => pyIn special_key e.1)).map
          (fun e => (pyReplace e.1 "qkv.conv" "to_qkv", e.2))).map Prod.snd)
        = ((d₁.filter (fun e => !(pyIn special_key e.1)) ++
          d₁.filter (fun e => pyIn special_key e.1)).map Prod.snd) := by
      simp [List.map_append, List.map_map, Function.comp]
    rw [hsplit]
    refine hperm.trans ?_
    rw [hd₁]
    simp only [List.map_map]
    exact List.Perm.refl _

/-- C10 counterexample: the two-entry mapping
`{"a.qkv.conv.weight": 0, "a.to_qkv.weight": 1}` has pairwise-distinct
renamed keys (the rename pass touches neither key), yet the special-key pass
overwrites the second entry with the first, losing the value `1`: the result
is the single-entry `{"a.to_qkv.weight": 0}`, whose values are not a
permutation of the input's values. -/
theorem convert_vae_passes_value_loss_example :
    convert_vae_passes [("a.qkv.conv.weight", (0 : Nat)), ("a.to_qkv.weight", 1)] =
        some [("a.to_qkv.weight", 0)] ∧
      (List.map renameKey ["a.qkv.conv.weight", "a.to_qkv.weight"]).Nodup ∧
      ¬ List.Perm ([("a.to_qkv.weight", (0 : Nat))].map Prod.snd)
          ([("a.qkv.conv.weight", (0 : Nat)), ("a.to_qkv.weight", 1)].map Prod.snd) := by
  refine ⟨rfl, by decide, ?_⟩
  intro hp
  have hl := hp.length_eq
  simp at hl

/-- C10 witness: a two-entry mapping with one trigger key and no collisions
keeps its multiset of values. -/
theorem convert_vae_passes_values_preserved_witness :
    ∃ result, convert_vae_passes [("x.qkv.conv.weight", (0 : Nat)), ("b", 1)] = some result ∧
      List.Perm (result.map Prod.snd)
        ([("x.qkv.conv.weight", (0 : Nat)), ("b", 1)].map Prod.snd) :=
  convert_vae_passes_values_preserved _ (by decide) (by decide) (by decide)
    (by decide) (by decide)

end DcAe
